import Mathlib

/-!
Verification of the execution-trace / graph-reversal engine in
`src/innvestigate/utils/keras/graph.py`.

Shallow embedding conventions:
* A tensor is identified by its runtime object identity, modelled as a `Nat`.
* A tensor value (the data a reverse rule produces) is a flat vector of
  integers, `Val := List Int`; the elementwise addition performed by the
  external `keras.layers.Add` layer is `addVal` (a `zipWith (+)`).
* Python dictionaries keyed by tensor identity are association lists with
  overwrite-on-assignment semantics (`aset`), matching dict assignment.
* Fallible code (dict `KeyError`, `raise`, `assert`) returns `Except RevErr`.
* The external tensor-algebra primitive `ilayers.Project` is out of scope per
  the specification and is passed in as an uninterpreted function parameter;
  `ilayers.Clip` is elementwise range clipping, modelled concretely.
-/

deriving instance DecidableEq for Except

/-- Errors raised by the traced Python code, plus `missingMapping`, which is
the dedicated error the specification expects for an unresolvable reverse
rule (the code itself never constructs it; see claim C9). -/
inductive RevErr where
  /-- `raise Exception("Wrong order, tensors already aggregated!")` -/
  | wrongOrderAggregated
  /-- `raise Exception("Error during reverse tensor aggeregation.")` -/
  | aggregationError
  /-- Python dict `KeyError` (lookup of a missing key). -/
  | keyError
  /-- A failing `assert` statement. -/
  | assertionError
  /-- Python `TypeError` from invoking `None` as the reverse mapping. -/
  | noneCallable
  /-- `raise NotImplementedError(...)` for `clip_all_reversed_tensors is True`. -/
  | notImplementedClip
  /-- `raise Exception("This is not supposed to happen!")` -/
  | notSupposedToHappen
  /-- `raise Exception("Cannot be more than one creating node.")` -/
  | duplicateCreator
  /-- `keras.layers.Add()(None)`: both contribution slots empty. -/
  | addNoneCall
  /-- The spec's expected `MissingMapping` error carrying the node identity. -/
  | missingMapping (nid : Nat)
deriving DecidableEq

/-- One execution record `(layer, input_tensors, output_tensors)` as produced
by `trace_model_execution`.  `lid` is the layer's object identity (records of
a shared layer carry the same `lid`), `isInput` models
`isinstance(layer, keras.layers.InputLayer)`, `isNetwork` models
`kchecks.is_network(layer)`. -/
structure LayerRec where
  lid : Nat
  isInput : Bool
  isNetwork : Bool
  xs : List Nat
  ys : List Nat
deriving DecidableEq

/-- A tensor value: flat integer vector. -/
abbrev Val := List Int

/-- Elementwise addition, the semantics of the external `keras.layers.Add`. -/
def addVal (a b : Val) : Val := List.zipWith (· + ·) a b

/-- `keras.layers.Add()` applied to a list of tensors: elementwise sum. -/
def sumVals : List Val → Val
  | [] => []
  | v :: vs => vs.foldl addVal v

/-- Elementwise range clipping, the semantics of the external `ilayers.Clip`. -/
def clipVal (lo hi : Int) (v : Val) : Val := v.map fun x => min hi (max lo x)

/-- Association-list lookup (Python dict read). -/
def alookup {β : Type} : List (Nat × β) → Nat → Option β
  | [], _ => none
  | (k, b) :: rest, t => if k = t then some b else alookup rest t

/-- Association-list assignment (Python dict write: overwrite or append). -/
def aset {β : Type} : List (Nat × β) → Nat → β → List (Nat × β)
  | [], t, b => [(t, b)]
  | (k, b0) :: rest, t, b => if k = t then (k, b) :: rest else (k, b0) :: aset rest t b

theorem alookup_aset_self {β : Type} (m : List (Nat × β)) (t : Nat) (b : β) :
    alookup (aset m t b) t = some b := by
  induction m with
  | nil => simp [aset, alookup]
  | cons hd tl ih =>
    obtain ⟨k, b0⟩ := hd
    by_cases h : k = t
    · simp [aset, alookup, h]
    · simp [aset, alookup, h, ih]

theorem alookup_aset_ne {β : Type} (m : List (Nat × β)) (t s : Nat) (b : β)
    (h : s ≠ t) : alookup (aset m t b) s = alookup m s := by
  induction m with
  | nil =>
    have h2 : ¬ t = s := fun hc => h hc.symm
    simp [aset, alookup, h2]
  | cons hd tl ih =>
    obtain ⟨k, b0⟩ := hd
    by_cases hk : k = t
    · subst hk
      have h2 : ¬ k = s := fun hc => h hc.symm
      simp [aset, alookup, h2]
    · simp [aset, alookup, hk, ih]

/-- Per-tensor reversal bookkeeping: the dict stored in `reversed_tensors[X]`
with keys `"id"`, `"tensor"`, `"tensors"`, `"final_tensor"`. -/
structure RTEntry where
  nodeId : Int × Nat
  tensor : Option Val
  tensors : Option (List Val)
  finalTensor : Option Val
deriving DecidableEq

/-- The `reversed_tensors` dict: tensor identity to bookkeeping entry. -/
abbrev RTMap := List (Nat × RTEntry)

/-- `add_reversed_tensor` (graph.py lines 1063-1084): contribute one backward
value to one tensor. -/
def addReversedTensor (stop : List Nat) (nid : Int) (i : Nat) (X : Nat)
    (reversedX : Val) (m : RTMap) : Except RevErr RTMap :=
  if X ∈ stop then .ok m
  else
    match alookup m X with
    | none => .ok (aset m X ⟨(nid, i), some reversedX, none, none⟩)
    | some tmp =>
      match tmp.tensor with
      | some v =>
        match tmp.tensors with
        | some _ => .error .wrongOrderAggregated
        | none =>
          .ok (aset m X { tmp with tensor := none, tensors := some [v, reversedX] })
      | none => .error .aggregationError

/-- `add_reversed_tensors` (graph.py lines 1062, 1086-1088): zip the forward
tensors with the produced backward values and contribute each pair. -/
def addReversedTensors (stop : List Nat) (nid : Int) (ts : List Nat)
    (vs : List Val) (m : RTMap) : Except RevErr RTMap :=
  (ts.zip vs).enum.foldlM
    (fun acc iXv => addReversedTensor stop nid iXv.1 iXv.2.1 iXv.2.2 acc) m

/-- `project_bottleneck_tensors` argument: `False`, `True` or an `(a, b)` range. -/
inductive ProjArg where
  | bFalse
  | bTrue
  | range (lo hi : Int)
deriving DecidableEq

/-- `clip_all_reversed_tensors` argument: `False`, `True` or a `(min, max)` pair. -/
inductive ClipArg where
  | bFalse
  | bTrue
  | range (lo hi : Int)
deriving DecidableEq

/-- Python truthiness of `project_bottleneck_tensors` (`if project_bottleneck_tensors:`
and `if project_bottleneck_tensors is not False:` coincide: `True` and any
tuple are truthy). -/
def truthyProj : ProjArg → Bool
  | .bFalse => false
  | _ => true

/-- `get_reversed_tensor` (graph.py lines 1090-1111): finalize (or read the
cached finalization of) one tensor's backward value.  `projectFn` is the
uninterpreted external `ilayers.Project(project_bottleneck_tensors)` layer. -/
def getReversedTensor (proj : ProjArg) (clip : ClipArg) (projectFn : Val → Val)
    (bottleneck : List Nat) (m : RTMap) (t : Nat) : Except RevErr (Val × RTMap) :=
  match alookup m t with
  | none => .error .keyError
  | some tmp =>
    match tmp.finalTensor with
    | some f => .ok (f, m)
    | none =>
      match (match tmp.tensor with
             | none =>
               (match tmp.tensors with
                | none => Except.error RevErr.addNoneCall
                | some vs => Except.ok (sumVals vs))
             | some v => Except.ok v) with
      | .error e => .error e
      | .ok f0 =>
        let f1 := if truthyProj proj ∧ t ∈ bottleneck then projectFn f0 else f0
        let f2 := match clip with
                  | .range lo hi => clipVal lo hi f1
                  | _ => f1
        .ok (f2, aset m t { tmp with finalTensor := some f2 })

/-- Sequential `get_reversed_tensor` over a list of tensors, threading the
cache updates (used for `reversed_Ys = [get_reversed_tensor(ys) for ys in Ys]`
and for the final list comprehension over the model inputs). -/
def resolveList (proj : ProjArg) (clip : ClipArg) (projectFn : Val → Val)
    (bottleneck : List Nat) (m : RTMap) :
    List Nat → Except RevErr (List Val × RTMap)
  | [] => .ok ([], m)
  | t :: ts =>
    match getReversedTensor proj clip projectFn bottleneck m t with
    | .error e => .error e
    | .ok (v, m1) =>
      match resolveList proj clip projectFn bottleneck m1 ts with
      | .error e => .error e
      | .ok (vs, m2) => .ok (v :: vs, m2)

theorem addVal_comm (a b : Val) : addVal a b = addVal b a := by
  unfold addVal
  exact List.zipWith_comm_of_comm _ (fun x y => Int.add_comm x y) a b

/-- Claim C1 (amended): a tensor receiving exactly two backward contributions
is finalized to their elementwise sum, independent of arrival order (with no
clipping and no bottleneck projection configured, which would post-process the
sum).  The original claim's "n contributions for n consuming records are all
aggregated" fails for n ≥ 3: see the counterexample. -/
theorem two_contributions_resolve_to_sum
    (stop : List Nat) (X : Nat) (v1 v2 : Val) (m : RTMap) (pf : Val → Val)
    (n1 n2 : Int) (i1 i2 : Nat) (bt : List Nat)
    (hX : X ∉ stop) (hm : alookup m X = none) :
    (addReversedTensor stop n1 i1 X v1 m >>= addReversedTensor stop n2 i2 X v2
       >>= fun mm => Except.map Prod.fst (getReversedTensor .bFalse .bFalse pf bt mm X))
      = .ok (addVal v1 v2)
    ∧ (addReversedTensor stop n2 i2 X v2 m >>= addReversedTensor stop n1 i1 X v1
       >>= fun mm => Except.map Prod.fst (getReversedTensor .bFalse .bFalse pf bt mm X))
      = .ok (addVal v2 v1)
    ∧ addVal v1 v2 = addVal v2 v1 := by
  have step : ∀ (na nb : Int) (ia ib : Nat) (va vb : Val),
      (addReversedTensor stop na ia X va m >>= addReversedTensor stop nb ib X vb
        >>= fun mm => Except.map Prod.fst (getReversedTensor .bFalse .bFalse pf bt mm X))
      = .ok (addVal va vb) := by
    intro na nb ia ib va vb
    have h1 : addReversedTensor stop na ia X va m
        = .ok (aset m X ⟨(na, ia), some va, none, none⟩) := by
      simp [addReversedTensor, hX, hm]
    have h2 : addReversedTensor stop nb ib X vb (aset m X ⟨(na, ia), some va, none, none⟩)
        = .ok (aset (aset m X ⟨(na, ia), some va, none, none⟩) X
                 ⟨(na, ia), none, some [va, vb], none⟩) := by
      simp [addReversedTensor, hX, alookup_aset_self]
    have h3 : getReversedTensor .bFalse .bFalse pf bt
        (aset (aset m X ⟨(na, ia), some va, none, none⟩) X
          ⟨(na, ia), none, some [va, vb], none⟩) X
        = .ok (addVal va vb,
            aset (aset (aset m X ⟨(na, ia), some va, none, none⟩) X
                   ⟨(na, ia), none, some [va, vb], none⟩) X
              ⟨(na, ia), none, some [va, vb], some (addVal va vb)⟩) := by
      simp [getReversedTensor, alookup_aset_self, sumVals, truthyProj]
    rw [h1]
    show (addReversedTensor stop nb ib X vb (aset m X ⟨(na, ia), some va, none, none⟩)
       >>= fun mm => Except.map Prod.fst (getReversedTensor .bFalse .bFalse pf bt mm X))
      = .ok (addVal va vb)
    rw [h2]
    show Except.map Prod.fst (getReversedTensor .bFalse .bFalse pf bt
        (aset (aset m X ⟨(na, ia), some va, none, none⟩) X
          ⟨(na, ia), none, some [va, vb], none⟩) X) = .ok (addVal va vb)
    rw [h3]
    rfl
  exact ⟨step n1 n2 i1 i2 v1 v2, step n2 n1 i2 i1 v2 v1, addVal_comm v1 v2⟩

theorem two_contributions_resolve_to_sum_witness :
    (0 ∉ ([] : List Nat)) ∧ alookup ([] : RTMap) 0 = none ∧
    ((addReversedTensor [] 0 0 0 [1, 2] [] >>= addReversedTensor [] 1 0 0 [10, 20]
        >>= fun mm => Except.map Prod.fst
              (getReversedTensor .bFalse .bFalse (fun v => v) [] mm 0))
       = .ok (addVal [1, 2] [10, 20])
     ∧ (addReversedTensor [] 1 0 0 [10, 20] [] >>= addReversedTensor [] 0 0 0 [1, 2]
        >>= fun mm => Except.map Prod.fst
              (getReversedTensor .bFalse .bFalse (fun v => v) [] mm 0))
       = .ok (addVal [10, 20] [1, 2])
     ∧ addVal [1, 2] [10, 20] = addVal [10, 20] [1, 2]) :=
  ⟨by decide, by decide,
   two_contributions_resolve_to_sum [] 0 [1, 2] [10, 20] [] (fun v => v) 0 1 0 0 []
     (by decide) (by decide)⟩

/-- Claim C1 counterexample: a tensor consumed by three records crashes on the
third contribution with the generic aggregation error instead of summing all
three values (the pending slot was already cleared by the二 aggregation). -/
theorem third_contribution_raises :
    (addReversedTensor [] 0 0 7 [1] [] >>= addReversedTensor [] 1 0 7 [2]
       >>= addReversedTensor [] 2 0 7 [3]) = .error .aggregationError := by
  decide

/-- Claim C2 (amended): once a tensor has been finalized from its single
pending contribution, a further contribution is accepted silently (no error at
all), and the finalized value remains unchanged: a subsequent resolve still
returns the cached value.  The original claim's `OrderViolation` failure does
not occur; the code's only ordering check (`"Wrong order, tensors already
aggregated!"`) tests the pending and aggregated slots, never the finalized
slot. -/
theorem contribution_after_finalize_is_silent
    (stop : List Nat) (X : Nat) (v w f : Val) (m : RTMap) (e : RTEntry)
    (proj : ProjArg) (clip : ClipArg) (pf : Val → Val) (bt : List Nat)
    (nid : Int) (i : Nat)
    (hX : X ∉ stop) (hm : alookup m X = some e) (hf : e.finalTensor = some f)
    (ht : e.tensor = some w) (hts : e.tensors = none) :
    (addReversedTensor stop nid i X v m >>= fun m' =>
       Except.map Prod.fst (getReversedTensor proj clip pf bt m' X)) = .ok f := by
  have h1 : addReversedTensor stop nid i X v m
      = .ok (aset m X { e with tensor := none, tensors := some [w, v] }) := by
    simp [addReversedTensor, hX, hm, ht, hts]
  have h2 : getReversedTensor proj clip pf bt
      (aset m X { e with tensor := none, tensors := some [w, v] }) X
      = .ok (f, aset m X { e with tensor := none, tensors := some [w, v] }) := by
    simp [getReversedTensor, alookup_aset_self, hf]
  rw [h1]
  show Except.map Prod.fst (getReversedTensor proj clip pf bt
      (aset m X { e with tensor := none, tensors := some [w, v] }) X) = .ok f
  rw [h2]
  rfl

theorem contribution_after_finalize_is_silent_witness :
    (5 ∉ ([] : List Nat))
    ∧ alookup [(5, (⟨(0, 0), some [9], none, some [9]⟩ : RTEntry))] 5
        = some ⟨(0, 0), some [9], none, some [9]⟩
    ∧ (RTEntry.finalTensor ⟨(0, 0), some [9], none, some [9]⟩ = some [9])
    ∧ (RTEntry.tensor ⟨(0, 0), some [9], none, some [9]⟩ = some [9])
    ∧ (RTEntry.tensors ⟨(0, 0), some [9], none, some [9]⟩ = none)
    ∧ (addReversedTensor [] 1 0 5 [4] [(5, ⟨(0, 0), some [9], none, some [9]⟩)]
        >>= fun m' =>
          Except.map Prod.fst
            (getReversedTensor .bFalse .bFalse (fun v => v) [] m' 5)) = .ok [9] :=
  ⟨by decide, by decide, by decide, by decide, by decide,
   contribution_after_finalize_is_silent [] 5 [4] [9] [9]
     [(5, ⟨(0, 0), some [9], none, some [9]⟩)] ⟨(0, 0), some [9], none, some [9]⟩
     .bFalse .bFalse (fun v => v) [] 1 0
     (by decide) (by decide) (by decide) (by decide) (by decide)⟩

/-- Claim C2 counterexample: contribute `[9]` to tensor 5, finalize it by a
first resolve, then contribute `[4]` — the whole chain succeeds (no
`OrderViolation`, no error of any kind) and the final resolve still returns
the stale `[9]`; the late contribution is recorded in the `tensors` slot but
never reflected in the finalized value. -/
theorem contribution_after_finalize_does_not_fail :
    (addReversedTensor [] 0 0 5 [9] [] >>= fun m1 =>
     getReversedTensor .bFalse .bFalse (fun v => v) [] m1 5 >>= fun p =>
     addReversedTensor [] 1 0 5 [4] p.2 >>= fun m3 =>
     getReversedTensor .bFalse .bFalse (fun v => v) [] m3 5)
    = .ok ([9], [(5, ⟨(0, 0), none, some [[9], [4]], some [9]⟩)]) := by
  decide

/-- The pruning pass inside `trace_model_execution` (graph.py lines 673-679),
acting on the reversed execution list: `used_as_input` starts as the output
list; a record is kept when all of its outputs are in `used_as_input`, and
keeping it appends its inputs. -/
def pruneRev : List LayerRec → List Nat → List LayerRec
  | [], _ => []
  | r :: rest, used =>
    if ∀ y ∈ r.ys, y ∈ used then r :: pruneRev rest (used ++ r.xs)
    else pruneRev rest used

/-- The full pruning pass (graph.py lines 673-679): visit `executed_nodes` in
reverse, collect kept records, and reverse the collected list back into
forward order. -/
def pruneExecutedNodes (nodes : List LayerRec) (outputs : List Nat) : List LayerRec :=
  (pruneRev nodes.reverse outputs).reverse

/-- The specification's pruning scan, following its words: a needed *set*
seeded with the declared outputs; walking in reverse, keep a record only if
all of its output tensors are currently needed, and then mark all of its
input tensors needed. -/
def pruneSpecRev : List LayerRec → Finset Nat → List LayerRec
  | [], _ => []
  | r :: rest, needed =>
    if ∀ y ∈ r.ys, y ∈ needed then r :: pruneSpecRev rest (needed ∪ r.xs.toFinset)
    else pruneSpecRev rest needed

/-- The specification's pruning pass, reversed back to forward order. -/
def pruneSpec (nodes : List LayerRec) (outputs : List Nat) : List LayerRec :=
  (pruneSpecRev nodes.reverse outputs.toFinset).reverse

theorem pruneRev_eq_spec (l : List LayerRec) :
    ∀ (used : List Nat) (needed : Finset Nat),
      (∀ t, t ∈ used ↔ t ∈ needed) →
      pruneRev l used = pruneSpecRev l needed := by
  induction l with
  | nil => intro used needed _; rfl
  | cons r rest ih =>
    intro used needed h
    by_cases hc : ∀ y ∈ r.ys, y ∈ needed
    · have hc2 : ∀ y ∈ r.ys, y ∈ used := fun y hy => (h y).mpr (hc y hy)
      have hinv : ∀ t, t ∈ used ++ r.xs ↔ t ∈ needed ∪ r.xs.toFinset := by
        intro t
        simp [List.mem_append, Finset.mem_union, List.mem_toFinset, h t]
      simp only [pruneRev, pruneSpecRev, if_pos hc, if_pos hc2]
      rw [ih _ _ hinv]
    · have hc2 : ¬ ∀ y ∈ r.ys, y ∈ used := fun hcc => hc fun y hy => (h y).mp (hcc y hy)
      simp only [pruneRev, pruneSpecRev, if_neg hc, if_neg hc2]
      exact ih _ _ h

theorem pruneRev_sublist (l : List LayerRec) :
    ∀ used, (pruneRev l used).Sublist l := by
  induction l with
  | nil => intro _; exact List.Sublist.slnil
  | cons r rest ih =>
    intro used
    by_cases hc : ∀ y ∈ r.ys, y ∈ used
    · simp only [pruneRev, if_pos hc]
      exact List.Sublist.cons₂ r (ih _)
    · simp only [pruneRev, if_neg hc]
      exact List.Sublist.cons r (ih _)

/-- Claim C3: the pruning pass keeps exactly the records selected by the
specification's single reverse scan (declared outputs seeded as needed, a
record kept iff all its outputs are needed, keeping marks its inputs needed),
and the kept records retain their relative forward order (they form a
sublist of the original execution list). -/
theorem prune_is_reverse_needed_scan (nodes : List LayerRec) (outputs : List Nat) :
    pruneExecutedNodes nodes outputs = pruneSpec nodes outputs
    ∧ (pruneExecutedNodes nodes outputs).Sublist nodes := by
  constructor
  · unfold pruneExecutedNodes pruneSpec
    rw [pruneRev_eq_spec _ _ _ fun t => Iff.symm List.mem_toFinset]
  · unfold pruneExecutedNodes
    have h := (pruneRev_sublist nodes.reverse outputs).reverse
    rwa [List.reverse_reverse] at h

/-- Number of input-layer records, `num_input_layers` (graph.py lines 1123-1125). -/
def numInputLayers (ex : List LayerRec) : Nat :=
  (ex.filter fun r => r.isInput).length

/-- Number of non-input records (the count of records that receive a node id). -/
def numNonInput (ex : List LayerRec) : Nat :=
  (ex.filter fun r => !r.isInput).length

/-- The id-assignment loop of `get_model_execution_trace` (graph.py lines
723-730): walk the trace forward, give each non-input record the next dense
id starting from `cur`, give input records `None`. -/
def assignNids : List LayerRec → Nat → List (Option Nat × LayerRec)
  | [], _ => []
  | r :: rest, cur =>
    if r.isInput then (none, r) :: assignNids rest cur
    else (some cur, r) :: assignNids rest (cur + 1)

/-- `id_execution_trace` (graph.py lines 723-730), starting from id 0. -/
def idExecutionTrace (ex : List LayerRec) : List (Option Nat × LayerRec) :=
  assignNids ex 0

/-- The node id `reverse_model` computes for the record at forward position
`p` (graph.py lines 1122-1127, 1196-1197): enumerating the reversed execution
list, the record at forward position `p` has reverse index `len - 1 - p`, and
`nid = len_execution_list_wo_inputs_layers - _nid - 1` (Python int, so the
value may be negative). -/
def backwardNid (ex : List LayerRec) (p : Nat) : Int :=
  ((ex.length : Int) - (numInputLayers ex : Int)) - ((ex.length - 1 - p : Nat) : Int) - 1

theorem numNonInput_add_numInputLayers (l : List LayerRec) :
    numNonInput l + numInputLayers l = l.length := by
  induction l with
  | nil => rfl
  | cons r rest ih =>
    cases hr : r.isInput with
    | false =>
      simp [numNonInput, numInputLayers, List.filter_cons, hr] at *
      omega
    | true =>
      simp [numNonInput, numInputLayers, List.filter_cons, hr] at *
      omega

theorem assignNids_length (l : List LayerRec) (c : Nat) :
    (assignNids l c).length = l.length := by
  induction l generalizing c with
  | nil => rfl
  | cons r rest ih =>
    cases hr : r.isInput with
    | false => simp [assignNids, hr, ih]
    | true => simp [assignNids, hr, ih]

theorem assignNids_append (l1 l2 : List LayerRec) (c : Nat) :
    assignNids (l1 ++ l2) c = assignNids l1 c ++ assignNids l2 (c + numNonInput l1) := by
  induction l1 generalizing c with
  | nil => simp [assignNids, numNonInput]
  | cons r rest ih =>
    cases hr : r.isInput with
    | true =>
      have hn : numNonInput (r :: rest) = numNonInput rest := by
        simp [numNonInput, List.filter_cons, hr]
      simp [assignNids, hr, ih, hn]
    | false =>
      have hn : numNonInput (r :: rest) = numNonInput rest + 1 := by
        simp [numNonInput, List.filter_cons, hr]
      have harith : c + (numNonInput rest + 1) = c + 1 + numNonInput rest := by omega
      simp [assignNids, hr, ih, hn, harith]

/-- Claim C4 (amended): the backward walk of `reverse_model` always visits
records in strictly decreasing node-id order (the computed nid is strictly
monotone in forward position), and the backward nid of a non-input record
coincides with the dense forward identifier assigned by
`get_model_execution_trace` exactly under the extra condition that every
input-producing record occurs before that record in the trace.  Without that
condition the two ids differ (see the counterexample, where the backward nid
is even negative): the backward computation subtracts the total number of
input records instead of the number occurring earlier. -/
theorem backward_nid_vs_forward_id :
    (∀ (ex : List LayerRec) (p q : Nat), p < q → q < ex.length →
       backwardNid ex p < backwardNid ex q)
    ∧ (∀ (pre : List LayerRec) (r : LayerRec) (post : List LayerRec),
       r.isInput = false →
       (r :: post).filter (fun s => s.isInput) = [] →
       (idExecutionTrace (pre ++ r :: post))[pre.length]?
           = some (some (numNonInput pre), r)
       ∧ backwardNid (pre ++ r :: post) pre.length = (numNonInput pre : Int)) := by
  constructor
  · intro ex p q hpq hq
    unfold backwardNid
    have hle := List.length_filter_le (fun r => r.isInput) ex
    unfold numInputLayers
    omega
  · intro pre r post hr hfil
    have hlen : (assignNids pre 0).length = pre.length := assignNids_length pre 0
    have happ : idExecutionTrace (pre ++ r :: post)
        = assignNids pre 0 ++ assignNids (r :: post) (0 + numNonInput pre) := by
      unfold idExecutionTrace
      exact assignNids_append pre (r :: post) 0
    constructor
    · rw [happ, List.getElem?_append_right (by omega)]
      simp only [hlen, Nat.sub_self]
      simp [assignNids, hr]
    · have hI : numInputLayers (pre ++ r :: post) = numInputLayers pre := by
        unfold numInputLayers
        rw [List.filter_append, hfil]
        simp
      have hpart := numNonInput_add_numInputLayers pre
      unfold backwardNid
      rw [hI]
      have hlen2 : (pre ++ r :: post).length = pre.length + (post.length + 1) := by
        simp
      rw [hlen2]
      omega

theorem backward_nid_vs_forward_id_witness :
    ((0 : Nat) < 1 ∧ (1 : Nat) < 2)
    ∧ backwardNid [⟨0, true, false, ([] : List Nat), [1]⟩,
                   ⟨1, false, false, [1], [2]⟩] 0
        < backwardNid [⟨0, true, false, ([] : List Nat), [1]⟩,
                       ⟨1, false, false, [1], [2]⟩] 1
    ∧ ((idExecutionTrace ([⟨0, true, false, ([] : List Nat), [1]⟩]
            ++ (⟨1, false, false, [1], [2]⟩ : LayerRec) :: []))[
          List.length [(⟨0, true, false, ([] : List Nat), [1]⟩ : LayerRec)]]?
          = some (some (numNonInput [⟨0, true, false, ([] : List Nat), [1]⟩]),
                  ⟨1, false, false, [1], [2]⟩)
        ∧ backwardNid ([⟨0, true, false, ([] : List Nat), [1]⟩]
            ++ (⟨1, false, false, [1], [2]⟩ : LayerRec) :: [])
            (List.length [(⟨0, true, false, ([] : List Nat), [1]⟩ : LayerRec)])
          = (numNonInput [⟨0, true, false, ([] : List Nat), [1]⟩] : Int)) :=
  ⟨⟨by decide, by decide⟩,
   backward_nid_vs_forward_id.1
     [⟨0, true, false, ([] : List Nat), [1]⟩, ⟨1, false, false, [1], [2]⟩]
     0 1 (by decide) (by decide),
   backward_nid_vs_forward_id.2
     [⟨0, true, false, ([] : List Nat), [1]⟩] ⟨1, false, false, [1], [2]⟩ []
     (by decide) (by decide)⟩

/-- Claim C4 counterexample: in the trace `[non-input, input, non-input]`
(a shape Keras produces for multi-input models where a declared input feeds
the graph at a shallow depth), the first non-input record gets forward id 0
from `get_model_execution_trace`, but `reverse_model` computes node id `-1`
for it during the backward walk: the two identifiers disagree. -/
theorem backward_nid_mismatch_example :
    (idExecutionTrace [⟨0, false, false, [10], [11]⟩, ⟨1, true, false, [], [12]⟩,
        ⟨2, false, false, [11, 12], [13]⟩])[0]?
      = some (some 0, ⟨0, false, false, [10], [11]⟩)
    ∧ backwardNid [⟨0, false, false, [10], [11]⟩, ⟨1, true, false, [], [12]⟩,
        ⟨2, false, false, [11, 12], [13]⟩] 0 = -1
    ∧ backwardNid [⟨0, false, false, [10], [11]⟩, ⟨1, true, false, [], [12]⟩,
        ⟨2, false, false, [11, 12], [13]⟩] 0 ≠ ((0 : Nat) : Int) := by
  refine ⟨by decide, by decide, by decide⟩

/-- `inputs_to_node`: tensor identity to the list of consuming node ids
(graph.py lines 736-745). -/
abbrev ConsMap := List (Nat × List Nat)

/-- `outputs_to_node`: tensor identity to producing node id (`none` for an
input-layer record, graph.py lines 747-752). -/
abbrev ProdMap := List (Nat × Option Nat)

/-- `inputs_to_node[Xid].append(nid)` with creation of a fresh singleton list
(graph.py lines 741-745). -/
def addConsumer (m : ConsMap) (x : Nat) (nid : Nat) : ConsMap :=
  match alookup m x with
  | none => aset m x [nid]
  | some cur => aset m x (cur ++ [nid])

/-- The per-record output registration (graph.py lines 748-752): for each
output tensor, raise `"Cannot be more than one creating node."` if the tensor
identity is already a key of `inputs_to_node`, otherwise assign
`outputs_to_node[Yid] = nid` (overwriting any previous producer). -/
def registerOutputs (ins : ConsMap) (nid : Option Nat) :
    ProdMap → List Nat → Except RevErr ProdMap
  | outs, [] => .ok outs
  | outs, y :: ys =>
    if (alookup ins y).isSome then .error .duplicateCreator
    else registerOutputs ins nid (aset outs y nid) ys

/-- The lookup-building loop of `get_model_execution_trace` (graph.py lines
736-752) over the identified execution trace: record the consumers of each
non-input record's inputs, then register its outputs. -/
def buildTensorLookups (keepInputLayers : Bool) :
    List (Option Nat × LayerRec) → ConsMap → ProdMap → Except RevErr (ConsMap × ProdMap)
  | [], ins, outs => .ok (ins, outs)
  | (nid, r) :: rest, ins, outs =>
    let ins2 := match nid with
      | some k => r.xs.foldl (fun m x => addConsumer m x k) ins
      | none => ins
    if keepInputLayers || nid.isSome then
      match registerOutputs ins2 nid outs r.ys with
      | .error e => .error e
      | .ok outs2 => buildTensorLookups keepInputLayers rest ins2 outs2
    else buildTensorLookups keepInputLayers rest ins2 outs

/-- Claim C5 exhibits a code bug.  First conjunct: a trace in which two
distinct kept records both produce tensor 7 (which no record consumes) passes
the lookup-building step with NO duplicate-producer error — the second record
silently overwrites the first in `outputs_to_node`, because the code checks
membership in `inputs_to_node` (the consumer index) instead of
`outputs_to_node` (the producer index), contradicting its own error message
"Cannot be more than one creating node.".  Second conjunct: conversely a
single-producer trace whose record outputs a tensor already seen as some
record's input does raise the duplicate-producer error. -/
theorem duplicate_producer_check_is_broken :
    buildTensorLookups false
      (idExecutionTrace [⟨0, false, false, [], [7]⟩, ⟨1, false, false, [], [7]⟩]) [] []
      = .ok ([], [(7, some 1)])
    ∧ buildTensorLookups false
      (idExecutionTrace [⟨0, false, false, [7], [8]⟩, ⟨1, false, false, [9], [7]⟩]) [] []
      = .error .duplicateCreator := by
  refine ⟨by decide, by decide⟩

/-- `forward_connections[x] += Ys` / `= list(Ys)` (graph.py lines 902-906). -/
def appendConn (m : List (Nat × List Nat)) (x : Nat) (ys : List Nat) :
    List (Nat × List Nat) :=
  match alookup m x with
  | none => aset m x ys
  | some cur => aset m x (cur ++ ys)

/-- The forward adjacency build of `get_bottleneck_nodes` (graph.py lines
896-906): for every non-input record, extend each input tensor's entry with
the record's output tensors. -/
def buildForwardConnections (ex : List LayerRec) : List (Nat × List Nat) :=
  ex.foldl
    (fun m r =>
      if r.isInput then m
      else r.xs.foldl (fun m2 x => appendConn m2 x r.ys) m)
    []

/-- `for fw_c in forward_connections[t]: open_connections[fw_c] = True`
(graph.py lines 909-911, 928-931); a missing adjacency entry is a dict
`KeyError`.  Setting every listed key true in the dict is adjoining the
entries to the open set. -/
def expandOpen (fwd : List (Nat × List Nat)) (opn : Finset Nat) (t : Nat) :
    Except RevErr (Finset Nat) :=
  match alookup fwd t with
  | none => .error .keyError
  | some ys => .ok (opn ∪ ys.toFinset)

/-- The open-set initialization (graph.py lines 908-911): expand every
declared input through the forward adjacency. -/
def initOpen (fwd : List (Nat × List Nat)) (inputs : List Nat) :
    Except RevErr (Finset Nat) :=
  inputs.foldlM (fun opn x => expandOpen fwd opn x) ∅

/-- `for Y in Ys: assert Y in open_connections; del open_connections[Y]`
(graph.py lines 921-923). -/
def removeAll (opn : Finset Nat) : List Nat → Except RevErr (Finset Nat)
  | [] => .ok opn
  | y :: ys => if y ∈ opn then removeAll (opn.erase y) ys else .error .assertionError

/-- The frontier re-expansion (graph.py lines 928-931): every output tensor
not among the declared outputs is expanded through the adjacency. -/
def reexpand (fwd : List (Nat × List Nat)) (outputs : List Nat)
    (opn : Finset Nat) : List Nat → Except RevErr (Finset Nat)
  | [] => .ok opn
  | y :: ys =>
    if y ∈ outputs then reexpand fwd outputs opn ys
    else
      match alookup fwd y with
      | none => .error .keyError
      | some zs => reexpand fwd outputs (opn ∪ zs.toFinset) ys

/-- The main loop of `get_bottleneck_nodes` (graph.py lines 913-933): walk
records in forward order, skip input records, remove each record's outputs
from the open set (asserting presence), record the node as a bottleneck when
the open set became empty, then re-expand. -/
def bottleneckLoop (fwd : List (Nat × List Nat)) (outputs : List Nat) :
    List LayerRec → Finset Nat → Except RevErr (List LayerRec)
  | [], _ => .ok []
  | r :: rest, opn =>
    if r.isInput then bottleneckLoop fwd outputs rest opn
    else
      match removeAll opn r.ys with
      | .error e => .error e
      | .ok opn2 =>
        match reexpand fwd outputs opn2 r.ys with
        | .error e => .error e
        | .ok opn3 =>
          match bottleneckLoop fwd outputs rest opn3 with
          | .error e => .error e
          | .ok ret => .ok (if opn2 = ∅ then r :: ret else ret)

/-- `get_bottleneck_nodes` (graph.py lines 882-933). -/
def getBottleneckNodes (inputs outputs : List Nat) (executionList : List LayerRec) :
    Except RevErr (List LayerRec) :=
  match initOpen (buildForwardConnections executionList) inputs with
  | .error e => .error e
  | .ok opn => bottleneckLoop (buildForwardConnections executionList) outputs executionList opn

/-- The single-tensor projection of `get_bottleneck_tensors` (graph.py lines
950-958): from a one-element tensor list take the tensor, deduplicated in
first-appearance order; longer lists are skipped. -/
def addSingle (ret : List Nat) (ts : List Nat) : List Nat :=
  match ts with
  | [t] => if t ∈ ret then ret else ret ++ [t]
  | _ => ret

/-- `get_bottleneck_tensors` (graph.py lines 936-959). -/
def getBottleneckTensors (inputs outputs : List Nat)
    (executionList : List LayerRec) : Except RevErr (List Nat) :=
  match getBottleneckNodes inputs outputs executionList with
  | .error e => .error e
  | .ok nodes => .ok (nodes.foldl (fun ret r => addSingle (addSingle ret r.xs) r.ys) [])

/-- The forward adjacency as the specification reads it: the output tensors
of every record consuming `t` (empty when `t` has no consumers). -/
def specAdj (fwd : List (Nat × List Nat)) (t : Nat) : List Nat :=
  (alookup fwd t).getD []

/-- The specification's frontier initialization: expand the declared inputs
through the forward adjacency. -/
def specInitOpen (fwd : List (Nat × List Nat)) (inputs : List Nat) : Finset Nat :=
  inputs.foldl (fun s x => s ∪ (specAdj fwd x).toFinset) ∅

/-- The specification's bottleneck scan, following its words: walk records in
forward order skipping input records; remove the record's output tensors from
the open frontier; the record is a bottleneck iff the frontier is then empty;
re-expand through every output tensor that is not a declared output. -/
def specBottleneckLoop (fwd : List (Nat × List Nat)) (outputs : List Nat) :
    List LayerRec → Finset Nat → List LayerRec
  | [], _ => []
  | r :: rest, opn =>
    if r.isInput then specBottleneckLoop fwd outputs rest opn
    else
      if (opn \ r.ys.toFinset) = ∅ then
        r :: specBottleneckLoop fwd outputs rest
          ((r.ys.filter fun y => decide (y ∉ outputs)).foldl
            (fun s y => s ∪ (specAdj fwd y).toFinset) (opn \ r.ys.toFinset))
      else
        specBottleneckLoop fwd outputs rest
          ((r.ys.filter fun y => decide (y ∉ outputs)).foldl
            (fun s y => s ∪ (specAdj fwd y).toFinset) (opn \ r.ys.toFinset))

/-- The specification's bottleneck-record list for a trace. -/
def specBottleneckNodes (inputs outputs : List Nat) (ex : List LayerRec) :
    List LayerRec :=
  specBottleneckLoop (buildForwardConnections ex) outputs ex
    (specInitOpen (buildForwardConnections ex) inputs)

theorem removeAll_ok (ys : List Nat) :
    ∀ (opn o : Finset Nat), removeAll opn ys = .ok o → o = opn \ ys.toFinset := by
  induction ys with
  | nil =>
    intro opn o h
    simp only [removeAll] at h
    cases h
    simp
  | cons y ys ih =>
    intro opn o h
    simp only [removeAll] at h
    by_cases hy : y ∈ opn
    · rw [if_pos hy] at h
      have := ih (opn.erase y) o h
      rw [this]
      ext a
      simp only [Finset.mem_sdiff, Finset.mem_erase, List.toFinset_cons,
        Finset.mem_insert, List.mem_toFinset]
      tauto
    · rw [if_neg hy] at h
      cases h

theorem reexpand_ok (fwd : List (Nat × List Nat)) (outputs : List Nat)
    (ys : List Nat) :
    ∀ (opn o : Finset Nat), reexpand fwd outputs opn ys = .ok o →
      o = (ys.filter fun y => decide (y ∉ outputs)).foldl
            (fun s y => s ∪ (specAdj fwd y).toFinset) opn := by
  induction ys with
  | nil =>
    intro opn o h
    simp only [reexpand] at h
    cases h
    rfl
  | cons y ys ih =>
    intro opn o h
    simp only [reexpand] at h
    by_cases hy : y ∈ outputs
    · rw [if_pos hy] at h
      have hd : decide (y ∉ outputs) = false := by simp [hy]
      rw [List.filter_cons, hd]
      exact ih opn o h
    · rw [if_neg hy] at h
      have hd : decide (y ∉ outputs) = true := by simp [hy]
      rw [List.filter_cons, hd]
      cases hfw : alookup fwd y with
      | none => rw [hfw] at h; cases h
      | some zs =>
        rw [hfw] at h
        have := ih _ o h
        rw [this]
        simp [List.foldl_cons, specAdj, hfw]

theorem initOpenAux (fwd : List (Nat × List Nat)) (l : List Nat) :
    ∀ (s o : Finset Nat),
      List.foldlM (fun opn x => expandOpen fwd opn x) s l = .ok o →
      o = l.foldl (fun s2 x => s2 ∪ (specAdj fwd x).toFinset) s := by
  induction l with
  | nil =>
    intro s o h
    simp only [List.foldlM_nil] at h
    cases h
    rfl
  | cons x l ih =>
    intro s o h
    simp only [List.foldlM_cons] at h
    cases hfw : alookup fwd x with
    | none =>
      rw [show expandOpen fwd s x = .error .keyError by simp [expandOpen, hfw]] at h
      simp [Bind.bind, Except.bind] at h
    | some zs =>
      rw [show expandOpen fwd s x = .ok (s ∪ zs.toFinset) by simp [expandOpen, hfw]] at h
      simp only [Bind.bind, Except.bind] at h
      have := ih _ o h
      rw [this]
      simp [List.foldl_cons, specAdj, hfw]

theorem initOpen_ok (fwd : List (Nat × List Nat)) (inputs : List Nat)
    (o : Finset Nat) (h : initOpen fwd inputs = .ok o) :
    o = specInitOpen fwd inputs := by
  unfold initOpen at h
  unfold specInitOpen
  exact initOpenAux fwd inputs ∅ o h

theorem bottleneckLoop_ok (fwd : List (Nat × List Nat)) (outputs : List Nat)
    (l : List LayerRec) :
    ∀ (opn : Finset Nat) (ret : List LayerRec),
      bottleneckLoop fwd outputs l opn = .ok ret →
      ret = specBottleneckLoop fwd outputs l opn := by
  induction l with
  | nil =>
    intro opn ret h
    simp only [bottleneckLoop] at h
    cases h
    rfl
  | cons r rest ih =>
    intro opn ret h
    simp only [bottleneckLoop, specBottleneckLoop] at *
    by_cases hr : r.isInput
    · rw [if_pos hr] at h
      rw [if_pos hr]
      exact ih opn ret h
    · rw [if_neg hr] at h
      rw [if_neg hr]
      cases h1 : removeAll opn r.ys with
      | error e => rw [h1] at h; cases h
      | ok opn2 =>
        rw [h1] at h
        dsimp only at h
        cases h2 : reexpand fwd outputs opn2 r.ys with
        | error e => rw [h2] at h; cases h
        | ok opn3 =>
          rw [h2] at h
          dsimp only at h
          cases h3 : bottleneckLoop fwd outputs rest opn3 with
          | error e => rw [h3] at h; cases h
          | ok ret2 =>
            rw [h3] at h
            dsimp only at h
            cases h
            have e1 := removeAll_ok r.ys opn opn2 h1
            have e2 := reexpand_ok fwd outputs r.ys opn2 opn3 h2
            have e3 := ih opn3 ret2 h3
            subst e1
            by_cases hempty : (opn \ r.ys.toFinset) = ∅
            · rw [if_pos hempty, if_pos hempty, e3, e2]
            · rw [if_neg hempty, if_neg hempty, e3, e2]

/-- Claim C7: whenever `get_bottleneck_nodes` returns, its result is exactly
the forward-ordered list of non-input records at which the open frontier
becomes empty immediately after removing the record's output tensors, with
the frontier initialized by expanding the declared inputs through the forward
adjacency and re-expanded after each record through every output tensor that
is not a declared output — i.e. the specification's scan. -/
theorem bottleneck_nodes_characterization
    (inputs outputs : List Nat) (ex : List LayerRec) (ret : List LayerRec)
    (h : getBottleneckNodes inputs outputs ex = .ok ret) :
    ret = specBottleneckNodes inputs outputs ex := by
  unfold getBottleneckNodes at h
  cases h0 : initOpen (buildForwardConnections ex) inputs with
  | error e => rw [h0] at h; cases h
  | ok opn =>
    rw [h0] at h
    have := bottleneckLoop_ok (buildForwardConnections ex) outputs ex opn ret h
    rw [this, initOpen_ok _ _ _ h0]
    rfl

theorem bottleneck_nodes_characterization_witness :
    getBottleneckNodes [0] [2]
        [⟨1, false, false, [0], [1]⟩, ⟨2, false, false, [1], [2]⟩]
      = .ok [⟨1, false, false, [0], [1]⟩, ⟨2, false, false, [1], [2]⟩]
    ∧ [(⟨1, false, false, [0], [1]⟩ : LayerRec), ⟨2, false, false, [1], [2]⟩]
      = specBottleneckNodes [0] [2]
          [⟨1, false, false, [0], [1]⟩, ⟨2, false, false, [1], [2]⟩] :=
  ⟨by decide,
   bottleneck_nodes_characterization [0] [2]
     [⟨1, false, false, [0], [1]⟩, ⟨2, false, false, [1], [2]⟩]
     [⟨1, false, false, [0], [1]⟩, ⟨2, false, false, [1], [2]⟩] (by decide)⟩

/-- The reverse-rule invocation context (graph.py lines 1224-1229): the node
id and the subset of the record's input tensors lying in the stop-set (the
`model` and `layer` entries carry no information in this model). -/
structure RevCtx where
  nid : Int
  stopMappingAtTensors : List Nat

/-- A resolved reverse rule: `(Xs, Ys, reversed_Ys, reverse_state) ->
reversed_Xs` (form (A) of graph.py lines 1000-1006; factory and class forms
are resolved to this form before the walk). -/
abbrev Mapping := List Nat → List Nat → List Val → RevCtx → List Val

/-- The up-front rule resolution (graph.py lines 1129-1185) reduced to its
observable content: `reverse_mappings(layer)` if it yields a rule, else the
caller's default (which may itself be absent, stored as `None`). -/
def initializedReverseMappings (rm : Nat → Option Mapping) (dflt : Option Mapping)
    (lid : Nat) : Option Mapping :=
  match rm lid with
  | none => dflt
  | some f => some f

/-- One iteration of the backward walk (graph.py lines 1196-1232) for the
record `ir.2` with reverse enumeration index `ir.1`; `n` is
`len_execution_list_wo_inputs_layers`.  Skips input-layer records, rejects
nested-network records, skips records with an output tensor that never
received a contribution, otherwise resolves the outputs, invokes the record's
resolved reverse rule (failing like Python when the stored rule is `None`),
and contributes the returned values to the record's inputs. -/
def walkStep (resolved : Nat → Option Mapping) (stop : List Nat) (proj : ProjArg)
    (clip : ClipArg) (pf : Val → Val) (bt : List Nat) (n : Int)
    (m : RTMap) (ir : Nat × LayerRec) : Except RevErr RTMap :=
  if ir.2.isInput then .ok m
  else if ir.2.isNetwork then .error .notSupposedToHappen
  else if !(ir.2.ys.all fun y => (alookup m y).isSome) then .ok m
  else
    match resolveList proj clip pf bt m ir.2.ys with
    | .error e => .error e
    | .ok (rYs, m2) =>
      match resolved ir.2.lid with
      | none => .error .noneCallable
      | some f =>
        addReversedTensors stop (n - (ir.1 : Int) - 1) ir.2.xs
          (f ir.2.xs ir.2.ys rYs
            ⟨n - (ir.1 : Int) - 1, ir.2.xs.filter fun x => decide (x ∈ stop)⟩) m2

/-- `reverse_model` (graph.py lines 980-1243).  The trace acquisition
(`trace_model_execution`, graph.py line 1118) is abstracted as the
`traceResult` argument carrying `(execution_list, outputs)`; the model's
declared inputs are `inputs`.  Returns the reversed input tensors together
with the full `reversed_tensors` map (the `return_all_reversed_tensors` flag
merely drops the second component). -/
def reverseModel (inputs : List Nat) (rm : Nat → Option Mapping)
    (dflt : Option Mapping) (head : Nat → Val) (stop : List Nat)
    (clip : ClipArg) (proj : ProjArg) (pf : Val → Val)
    (traceResult : Except RevErr (List LayerRec × List Nat)) :
    Except RevErr (List Val × RTMap) :=
  if clip = ClipArg.bTrue then .error .notImplementedClip
  else
    match traceResult with
    | .error e => .error e
    | .ok (executionList, outputs) =>
      match (if truthyProj proj
             then getBottleneckTensors inputs outputs executionList
             else .ok []) with
      | .error e => .error e
      | .ok bt =>
        match addReversedTensors stop (-1) outputs (outputs.map head) [] with
        | .error e => .error e
        | .ok m0 =>
          match executionList.reverse.enum.foldlM
              (walkStep (initializedReverseMappings rm dflt) stop proj clip pf bt
                ((executionList.length : Int) - (numInputLayers executionList : Int)))
              m0 with
          | .error e => .error e
          | .ok m1 =>
            match resolveList proj clip pf bt m1
                (inputs.filter fun t => decide (t ∉ stop)) with
            | .error e => .error e
            | .ok (vals, m2) => .ok (vals, m2)

/-- Claim C10: passing the boolean `True` for `clip_all_reversed_tensors`
fails with `NotImplementedError` during argument validation, for every model,
rule configuration and trace — including a trace whose own computation would
fail, showing the validation happens before any tracing or reversal work. -/
theorem clip_true_raises_before_tracing
    (inputs : List Nat) (rm : Nat → Option Mapping) (dflt : Option Mapping)
    (head : Nat → Val) (stop : List Nat) (proj : ProjArg) (pf : Val → Val)
    (traceResult : Except RevErr (List LayerRec × List Nat)) :
    reverseModel inputs rm dflt head stop ClipArg.bTrue proj pf traceResult
      = .error .notImplementedClip := by
  rfl

theorem getReversedTensor_cases (proj : ProjArg) (clip : ClipArg) (pf : Val → Val)
    (bt : List Nat) (m : RTMap) (t : Nat) (v : Val) (m2 : RTMap)
    (h : getReversedTensor proj clip pf bt m t = .ok (v, m2)) :
    (m2 = m ∧ ∃ e, alookup m t = some e ∧ e.finalTensor = some v)
    ∨ (∃ e, alookup m t = some e ∧ e.finalTensor = none
        ∧ m2 = aset m t { e with finalTensor := some v }) := by
  unfold getReversedTensor at h
  cases h0 : alookup m t with
  | none => rw [h0] at h; cases h
  | some tmp =>
    rw [h0] at h
    dsimp only at h
    cases hf : tmp.finalTensor with
    | some f =>
      rw [hf] at h
      dsimp only at h
      cases h
      exact Or.inl ⟨rfl, tmp, rfl, hf⟩
    | none =>
      rw [hf] at h
      dsimp only at h
      cases ht : tmp.tensor with
      | some w =>
        rw [ht] at h
        dsimp only at h
        cases h
        exact Or.inr ⟨tmp, rfl, hf, by rw [ht]⟩
      | none =>
        rw [ht] at h
        dsimp only at h
        cases hts : tmp.tensors with
        | none => rw [hts] at h; cases h
        | some vs =>
          rw [hts] at h
          dsimp only at h
          cases h
          exact Or.inr ⟨tmp, rfl, hf, by rw [ht, hts]⟩

theorem getReversedTensor_sets_final (proj : ProjArg) (clip : ClipArg)
    (pf : Val → Val) (bt : List Nat) (m : RTMap) (t : Nat) (v : Val) (m2 : RTMap)
    (h : getReversedTensor proj clip pf bt m t = .ok (v, m2)) :
    ∃ e, alookup m2 t = some e ∧ e.finalTensor = some v := by
  rcases getReversedTensor_cases proj clip pf bt m t v m2 h with
    ⟨heq, e, hl, hf⟩ | ⟨e, hl, _, heq⟩
  · exact ⟨e, heq ▸ hl, hf⟩
  · exact ⟨{ e with finalTensor := some v }, heq ▸ alookup_aset_self m t _, rfl⟩

theorem getReversedTensor_frame (proj : ProjArg) (clip : ClipArg)
    (pf : Val → Val) (bt : List Nat) (m : RTMap) (t : Nat) (v : Val) (m2 : RTMap)
    (s : Nat) (hs : s ≠ t)
    (h : getReversedTensor proj clip pf bt m t = .ok (v, m2)) :
    alookup m2 s = alookup m s := by
  rcases getReversedTensor_cases proj clip pf bt m t v m2 h with
    ⟨heq, _, _, _⟩ | ⟨e, _, _, heq⟩
  · rw [heq]
  · rw [heq]
    exact alookup_aset_ne m t s _ hs

theorem getReversedTensor_preserves_final (proj : ProjArg) (clip : ClipArg)
    (pf : Val → Val) (bt : List Nat) (m : RTMap) (t : Nat) (v : Val) (m2 : RTMap)
    (s : Nat) (e : RTEntry) (f : Val)
    (hl : alookup m s = some e) (hf : e.finalTensor = some f)
    (h : getReversedTensor proj clip pf bt m t = .ok (v, m2)) :
    ∃ e2, alookup m2 s = some e2 ∧ e2.finalTensor = some f := by
  by_cases hs : s = t
  · subst hs
    rcases getReversedTensor_cases proj clip pf bt m s v m2 h with
      ⟨heq, e2, hl2, hf2⟩ | ⟨e2, hl2, hnone, _⟩
    · rw [heq]
      exact ⟨e, hl, hf⟩
    · rw [hl] at hl2
      cases hl2
      rw [hnone] at hf
      cases hf
  · rw [← getReversedTensor_frame proj clip pf bt m t v m2 s hs h] at hl
    exact ⟨e, hl, hf⟩

theorem resolveList_preserves_final (proj : ProjArg) (clip : ClipArg)
    (pf : Val → Val) (bt : List Nat) (ts : List Nat) :
    ∀ (m : RTMap) (vals : List Val) (m2 : RTMap) (s : Nat) (e : RTEntry) (f : Val),
      resolveList proj clip pf bt m ts = .ok (vals, m2) →
      alookup m s = some e → e.finalTensor = some f →
      ∃ e2, alookup m2 s = some e2 ∧ e2.finalTensor = some f := by
  induction ts with
  | nil =>
    intro m vals m2 s e f h hl hf
    simp only [resolveList] at h
    cases h
    exact ⟨e, hl, hf⟩
  | cons t ts ih =>
    intro m vals m2 s e f h hl hf
    simp only [resolveList] at h
    cases h0 : getReversedTensor proj clip pf bt m t with
    | error er => rw [h0] at h; cases h
    | ok p =>
      obtain ⟨v, m1⟩ := p
      rw [h0] at h
      dsimp only at h
      cases h1 : resolveList proj clip pf bt m1 ts with
      | error er => rw [h1] at h; cases h
      | ok q =>
        obtain ⟨vs, mq⟩ := q
        rw [h1] at h
        dsimp only at h
        cases h
        obtain ⟨e1, hl1, hf1⟩ :=
          getReversedTensor_preserves_final proj clip pf bt m t v m1 s e f hl hf h0
        exact ih m1 _ _ s e1 f h1 hl1 hf1

theorem resolveList_forall2 (proj : ProjArg) (clip : ClipArg)
    (pf : Val → Val) (bt : List Nat) (ts : List Nat) :
    ∀ (m : RTMap) (vals : List Val) (m2 : RTMap),
      resolveList proj clip pf bt m ts = .ok (vals, m2) →
      List.Forall₂ (fun t v => ∃ e, alookup m2 t = some e ∧ e.finalTensor = some v)
        ts vals := by
  induction ts with
  | nil =>
    intro m vals m2 h
    simp only [resolveList] at h
    cases h
    exact List.Forall₂.nil
  | cons t ts ih =>
    intro m vals m2 h
    simp only [resolveList] at h
    cases h0 : getReversedTensor proj clip pf bt m t with
    | error er => rw [h0] at h; cases h
    | ok p =>
      obtain ⟨v, m1⟩ := p
      rw [h0] at h
      dsimp only at h
      cases h1 : resolveList proj clip pf bt m1 ts with
      | error er => rw [h1] at h; cases h
      | ok q =>
        obtain ⟨vs, mq⟩ := q
        rw [h1] at h
        dsimp only at h
        cases h
        obtain ⟨e1, hl1, hf1⟩ :=
          getReversedTensor_sets_final proj clip pf bt m t v m1 h0
        obtain ⟨e2, hl2, hf2⟩ :=
          resolveList_preserves_final proj clip pf bt ts m1 _ _ t e1 v h1 hl1 hf1
        exact List.Forall₂.cons ⟨e2, hl2, hf2⟩ (ih m1 _ _ h1)

theorem reverseModel_ok_inv (inputs : List Nat) (rm : Nat → Option Mapping)
    (dflt : Option Mapping) (head : Nat → Val) (stop : List Nat)
    (clip : ClipArg) (proj : ProjArg) (pf : Val → Val)
    (traceResult : Except RevErr (List LayerRec × List Nat))
    (vals : List Val) (m : RTMap)
    (h : reverseModel inputs rm dflt head stop clip proj pf traceResult
          = .ok (vals, m)) :
    ∃ ex outs bt m0 m1,
      traceResult = .ok (ex, outs)
      ∧ addReversedTensors stop (-1) outs (outs.map head) [] = .ok m0
      ∧ ex.reverse.enum.foldlM
          (walkStep (initializedReverseMappings rm dflt) stop proj clip pf bt
            ((ex.length : Int) - (numInputLayers ex : Int))) m0 = .ok m1
      ∧ resolveList proj clip pf bt m1 (inputs.filter fun t => decide (t ∉ stop))
          = .ok (vals, m) := by
  unfold reverseModel at h
  by_cases hc : clip = ClipArg.bTrue
  · rw [if_pos hc] at h; cases h
  · rw [if_neg hc] at h
    cases traceResult with
    | error e => cases h
    | ok exouts =>
      obtain ⟨ex, outs⟩ := exouts
      dsimp only at h
      cases hbt : (if truthyProj proj
                   then getBottleneckTensors inputs outs ex
                   else .ok []) with
      | error e => rw [hbt] at h; cases h
      | ok bt =>
        rw [hbt] at h
        dsimp only at h
        cases hm0 : addReversedTensors stop (-1) outs (outs.map head) [] with
        | error e => rw [hm0] at h; cases h
        | ok m0 =>
          rw [hm0] at h
          dsimp only at h
          cases hm1 : ex.reverse.enum.foldlM
              (walkStep (initializedReverseMappings rm dflt) stop proj clip pf bt
                ((ex.length : Int) - (numInputLayers ex : Int))) m0 with
          | error e => rw [hm1] at h; cases h
          | ok m1 =>
            rw [hm1] at h
            dsimp only at h
            cases hres : resolveList proj clip pf bt m1
                (inputs.filter fun t => decide (t ∉ stop)) with
            | error e => rw [hres] at h; cases h
            | ok p =>
              obtain ⟨vals2, m2⟩ := p
              rw [hres] at h
              dsimp only at h
              cases h
              exact ⟨ex, outs, bt, m0, m1, rfl, hm0, hm1, hres⟩

/-- Claim C6 (amended): whenever `reverse_model` returns, the returned list is
exactly the resolved backward value of every declared model input not in the
stop-set, in declared input order: each returned value is the finalized entry
of the corresponding non-stopped input in the final `reversed_tensors` map.
The original claim's unconditional "for every configuration the engine
accepts" fails: a declared input that never received a contribution (e.g.
severed by the stop-set) makes the final resolution fail with a lookup error
instead of returning — see the counterexample. -/
theorem reversed_inputs_are_resolved_nonstop_inputs
    (inputs : List Nat) (rm : Nat → Option Mapping) (dflt : Option Mapping)
    (head : Nat → Val) (stop : List Nat) (clip : ClipArg) (proj : ProjArg)
    (pf : Val → Val) (traceResult : Except RevErr (List LayerRec × List Nat))
    (vals : List Val) (m : RTMap)
    (h : reverseModel inputs rm dflt head stop clip proj pf traceResult
          = .ok (vals, m)) :
    List.Forall₂ (fun t v => ∃ e, alookup m t = some e ∧ e.finalTensor = some v)
      (inputs.filter fun t => decide (t ∉ stop)) vals := by
  obtain ⟨ex, outs, bt, m0, m1, _, _, _, hres⟩ :=
    reverseModel_ok_inv inputs rm dflt head stop clip proj pf traceResult vals m h
  exact resolveList_forall2 proj clip pf bt _ m1 vals m hres

theorem reversed_inputs_are_resolved_nonstop_inputs_witness :
    reverseModel [7] (fun _ => some fun _ _ rYs _ => rYs) none
      (fun t => [(t : Int)]) [] .bFalse .bFalse (fun v => v)
      (.ok ([⟨0, true, false, [], [7]⟩, ⟨1, false, false, [7], [5]⟩], [5]))
      = .ok ([[5]], [(5, ⟨(-1, 0), some [5], none, some [5]⟩),
                     (7, ⟨(0, 0), some [5], none, some [5]⟩)])
    ∧ List.Forall₂
        (fun t v => ∃ e,
          alookup [(5, (⟨(-1, 0), some [5], none, some [5]⟩ : RTEntry)),
                   (7, ⟨(0, 0), some [5], none, some [5]⟩)] t = some e
          ∧ e.finalTensor = some v)
        ([7].filter fun t => decide (t ∉ ([] : List Nat))) [[5]] :=
  ⟨by decide,
   reversed_inputs_are_resolved_nonstop_inputs [7]
     (fun _ => some fun _ _ rYs _ => rYs) none (fun t => [(t : Int)]) []
     .bFalse .bFalse (fun v => v)
     (.ok ([⟨0, true, false, [], [7]⟩, ⟨1, false, false, [7], [5]⟩], [5]))
     [[5]]
     [(5, ⟨(-1, 0), some [5], none, some [5]⟩),
      (7, ⟨(0, 0), some [5], none, some [5]⟩)]
     (by decide)⟩

/-- Claim C6 counterexample: with the stop-set `{4}` severing the only path
to declared input 7 (trace: input produces 7, a record maps 7 to 4, another
maps 4 to declared output 5), the input 7 is not itself stopped, receives no
contribution, and the final resolution crashes with a lookup error instead of
returning a result list — refuting the claim for configurations where a
stop-set or disconnection leaves a declared input with no contribution. -/
theorem severed_input_resolution_raises :
    reverseModel [7] (fun _ => some fun _ _ rYs _ => rYs) none
      (fun t => [(t : Int)]) [4] .bFalse .bFalse (fun v => v)
      (.ok ([⟨0, true, false, [], [7]⟩, ⟨1, false, false, [7], [4]⟩,
             ⟨2, false, false, [4], [5]⟩], [5]))
      = .error .keyError := by
  decide

theorem foldlM_except_inv {α β : Type} (P : β → Prop) (step : β → α → Except RevErr β)
    (hstep : ∀ b a b2, step b a = .ok b2 → P b → P b2) :
    ∀ (l : List α) (b b2 : β), List.foldlM step b l = .ok b2 → P b → P b2 := by
  intro l
  induction l with
  | nil =>
    intro b b2 h hP
    simp only [List.foldlM_nil] at h
    cases h
    exact hP
  | cons a l ih =>
    intro b b2 h hP
    simp only [List.foldlM_cons] at h
    cases h0 : step b a with
    | error e =>
      rw [h0] at h
      simp [Bind.bind, Except.bind] at h
    | ok b1 =>
      rw [h0] at h
      simp only [Bind.bind, Except.bind] at h
      exact ih b1 b2 h (hstep b a b1 h0 hP)

theorem addReversedTensor_stopFree (stop : List Nat) (nid : Int) (i X : Nat)
    (v : Val) (m m2 : RTMap)
    (h : addReversedTensor stop nid i X v m = .ok m2)
    (hs : ∀ t ∈ stop, alookup m t = none) :
    ∀ t ∈ stop, alookup m2 t = none := by
  unfold addReversedTensor at h
  by_cases hx : X ∈ stop
  · rw [if_pos hx] at h
    cases h
    exact hs
  · rw [if_neg hx] at h
    cases h0 : alookup m X with
    | none =>
      rw [h0] at h
      dsimp only at h
      cases h
      intro t ht
      have hne : t ≠ X := fun heq => hx (heq ▸ ht)
      rw [alookup_aset_ne m X t _ hne]
      exact hs t ht
    | some tmp =>
      rw [h0] at h
      dsimp only at h
      cases htn : tmp.tensor with
      | some w =>
        rw [htn] at h
        dsimp only at h
        cases hts : tmp.tensors with
        | some _ => rw [hts] at h; cases h
        | none =>
          rw [hts] at h
          dsimp only at h
          cases h
          intro t ht
          have hne : t ≠ X := fun heq => hx (heq ▸ ht)
          rw [alookup_aset_ne m X t _ hne]
          exact hs t ht
      | none => rw [htn] at h; cases h

theorem addReversedTensors_stopFree (stop : List Nat) (nid : Int) (ts : List Nat)
    (vs : List Val) (m m2 : RTMap)
    (h : addReversedTensors stop nid ts vs m = .ok m2)
    (hs : ∀ t ∈ stop, alookup m t = none) :
    ∀ t ∈ stop, alookup m2 t = none := by
  unfold addReversedTensors at h
  exact foldlM_except_inv (fun mm => ∀ t ∈ stop, alookup mm t = none) _
    (fun b a b2 hb hP => addReversedTensor_stopFree stop nid a.1 a.2.1 a.2.2 b b2 hb hP)
    _ m m2 h hs

theorem getReversedTensor_stopFree (proj : ProjArg) (clip : ClipArg)
    (pf : Val → Val) (bt : List Nat) (m : RTMap) (t : Nat) (v : Val) (m2 : RTMap)
    (stop : List Nat)
    (h : getReversedTensor proj clip pf bt m t = .ok (v, m2))
    (hs : ∀ s ∈ stop, alookup m s = none) :
    ∀ s ∈ stop, alookup m2 s = none := by
  rcases getReversedTensor_cases proj clip pf bt m t v m2 h with
    ⟨heq, _⟩ | ⟨e, hl, _, heq⟩
  · rw [heq]
    exact hs
  · intro s hsm
    have hne : s ≠ t := by
      intro hst
      subst hst
      rw [hs s hsm] at hl
      cases hl
    rw [heq, alookup_aset_ne m t s _ hne]
    exact hs s hsm

theorem resolveList_stopFree (proj : ProjArg) (clip : ClipArg)
    (pf : Val → Val) (bt : List Nat) (ts : List Nat) :
    ∀ (stop : List Nat) (m : RTMap) (vals : List Val) (m2 : RTMap),
      resolveList proj clip pf bt m ts = .ok (vals, m2) →
      (∀ s ∈ stop, alookup m s = none) → ∀ s ∈ stop, alookup m2 s = none := by
  induction ts with
  | nil =>
    intro stop m vals m2 h hs
    simp only [resolveList] at h
    cases h
    exact hs
  | cons t ts ih =>
    intro stop m vals m2 h hs
    simp only [resolveList] at h
    cases h0 : getReversedTensor proj clip pf bt m t with
    | error er => rw [h0] at h; cases h
    | ok p =>
      obtain ⟨v, m1⟩ := p
      rw [h0] at h
      dsimp only at h
      cases h1 : resolveList proj clip pf bt m1 ts with
      | error er => rw [h1] at h; cases h
      | ok q =>
        obtain ⟨vs, mq⟩ := q
        rw [h1] at h
        dsimp only at h
        cases h
        exact ih stop m1 _ _ h1
          (getReversedTensor_stopFree proj clip pf bt m t v m1 stop h0 hs)

theorem walkStep_stopFree (resolved : Nat → Option Mapping) (stop : List Nat)
    (proj : ProjArg) (clip : ClipArg) (pf : Val → Val) (bt : List Nat) (n : Int)
    (m : RTMap) (ir : Nat × LayerRec) (m2 : RTMap)
    (h : walkStep resolved stop proj clip pf bt n m ir = .ok m2)
    (hs : ∀ t ∈ stop, alookup m t = none) :
    ∀ t ∈ stop, alookup m2 t = none := by
  unfold walkStep at h
  by_cases h1 : ir.2.isInput = true
  · rw [if_pos h1] at h
    cases h
    exact hs
  · rw [if_neg h1] at h
    by_cases h2 : ir.2.isNetwork = true
    · rw [if_pos h2] at h; cases h
    · rw [if_neg h2] at h
      by_cases h3 : (!(ir.2.ys.all fun y => (alookup m y).isSome)) = true
      · rw [if_pos h3] at h
        cases h
        exact hs
      · rw [if_neg h3] at h
        cases h4 : resolveList proj clip pf bt m ir.2.ys with
        | error e => rw [h4] at h; cases h
        | ok p =>
          obtain ⟨rYs, mr⟩ := p
          rw [h4] at h
          dsimp only at h
          cases h5 : resolved ir.2.lid with
          | none => rw [h5] at h; cases h
          | some f =>
            rw [h5] at h
            dsimp only at h
            exact addReversedTensors_stopFree stop _ ir.2.xs _ mr m2 h
              (resolveList_stopFree proj clip pf bt ir.2.ys stop m rYs mr h4 hs)

/-- Claim C8: on every completed reversal run, (1) no stop-set tensor is a
key of the returned `reversed_tensors` map (so every contribution to it was
discarded, never tracked), (2) the returned reversed-input list has exactly
one entry per NON-stopped declared input (stop-set inputs are excluded from
it), and (3) a contribution to a stop-set tensor leaves the state unchanged
and raises nothing (silent discard). -/
theorem stop_set_exclusion
    (inputs : List Nat) (rm : Nat → Option Mapping) (dflt : Option Mapping)
    (head : Nat → Val) (stop : List Nat) (clip : ClipArg) (proj : ProjArg)
    (pf : Val → Val) (traceResult : Except RevErr (List LayerRec × List Nat))
    (vals : List Val) (m : RTMap)
    (h : reverseModel inputs rm dflt head stop clip proj pf traceResult
          = .ok (vals, m)) :
    (∀ t ∈ stop, alookup m t = none)
    ∧ vals.length = (inputs.filter fun t => decide (t ∉ stop)).length
    ∧ ∀ (nid : Int) (i X : Nat) (v : Val) (mz : RTMap),
        X ∈ stop → addReversedTensor stop nid i X v mz = .ok mz := by
  obtain ⟨ex, outs, bt, m0, m1, _, hseed, hwalk, hres⟩ :=
    reverseModel_ok_inv inputs rm dflt head stop clip proj pf traceResult vals m h
  have hinit : ∀ t ∈ stop, alookup ([] : RTMap) t = none := fun t _ => rfl
  have h1 := addReversedTensors_stopFree stop (-1) outs (outs.map head) [] m0 hseed hinit
  have h2 := foldlM_except_inv (fun mm => ∀ t ∈ stop, alookup mm t = none) _
      (fun b a b2 hb hP =>
        walkStep_stopFree (initializedReverseMappings rm dflt) stop proj clip pf bt
          ((ex.length : Int) - (numInputLayers ex : Int)) b a b2 hb hP)
      ex.reverse.enum m0 m1 hwalk h1
  have h3 := resolveList_stopFree proj clip pf bt
      (inputs.filter fun t => decide (t ∉ stop)) stop m1 vals m hres h2
  refine ⟨h3, ?_, ?_⟩
  · exact (resolveList_forall2 proj clip pf bt _ m1 vals m hres).length_eq.symm
  · intro nid i X v mz hX
    unfold addReversedTensor
    rw [if_pos hX]

theorem stop_set_exclusion_witness :
    reverseModel [7] (fun _ => some fun _ _ rYs _ => rYs) none
      (fun t => [(t : Int)]) [9] .bFalse .bFalse (fun v => v)
      (.ok ([⟨0, true, false, [], [7]⟩, ⟨1, false, false, [7], [5]⟩], [5]))
      = .ok ([[5]], [(5, ⟨(-1, 0), some [5], none, some [5]⟩),
                     (7, ⟨(0, 0), some [5], none, some [5]⟩)])
    ∧ ((∀ t ∈ ([9] : List Nat),
          alookup [(5, (⟨(-1, 0), some [5], none, some [5]⟩ : RTEntry)),
                   (7, ⟨(0, 0), some [5], none, some [5]⟩)] t = none)
       ∧ ([[5]] : List Val).length
           = ([7].filter fun t => decide (t ∉ ([9] : List Nat))).length
       ∧ ∀ (nid : Int) (i X : Nat) (v : Val) (mz : RTMap),
           X ∈ ([9] : List Nat) → addReversedTensor [9] nid i X v mz = .ok mz) :=
  ⟨by decide,
   stop_set_exclusion [7] (fun _ => some fun _ _ rYs _ => rYs) none
     (fun t => [(t : Int)]) [9] .bFalse .bFalse (fun v => v)
     (.ok ([⟨0, true, false, [], [7]⟩, ⟨1, false, false, [7], [5]⟩], [5]))
     [[5]]
     [(5, ⟨(-1, 0), some [5], none, some [5]⟩),
      (7, ⟨(0, 0), some [5], none, some [5]⟩)]
     (by decide)⟩

/-- Whether an error is the specification's dedicated `MissingMapping` error
(carrying the offending node identity). -/
def isMissingMappingErr : RevErr → Bool
  | .missingMapping _ => true
  | _ => false

/-- Claim C9 (amended): when neither an explicit/type-registered rule nor a
default resolves for a node, the run does fail lazily at the first use of
that node during the backward walk — a record whose outputs never received a
contribution is skipped without error even with no rule (first conjunct), and
a reached record with no rule makes the walk fail (second conjunct) — but the
failure is the untyped Python error of calling `None` (`TypeError`), not a
dedicated MissingMapping error carrying the node identity: the resolution
loop silently stores `None` and the walk invokes it. -/
theorem missing_mapping_fails_lazily :
    (∀ (rmSrc : Nat → Option Mapping) (stop : List Nat) (proj : ProjArg)
       (clip : ClipArg) (pf : Val → Val) (bt : List Nat) (n : Int) (m : RTMap)
       (i : Nat) (r : LayerRec),
       r.isInput = false → r.isNetwork = false →
       (r.ys.all fun y => (alookup m y).isSome) = false →
       walkStep (initializedReverseMappings rmSrc none) stop proj clip pf bt n m (i, r)
         = .ok m)
    ∧ (∀ (rmSrc : Nat → Option Mapping) (stop : List Nat) (proj : ProjArg)
       (clip : ClipArg) (pf : Val → Val) (bt : List Nat) (n : Int) (m : RTMap)
       (i : Nat) (r : LayerRec) (rYs : List Val) (m2 : RTMap),
       r.isInput = false → r.isNetwork = false →
       (r.ys.all fun y => (alookup m y).isSome) = true →
       resolveList proj clip pf bt m r.ys = .ok (rYs, m2) →
       rmSrc r.lid = none →
       walkStep (initializedReverseMappings rmSrc none) stop proj clip pf bt n m (i, r)
         = .error .noneCallable) := by
  constructor
  · intro rmSrc stop proj clip pf bt n m i r hin hnet hall
    unfold walkStep
    simp [hin, hnet, hall]
  · intro rmSrc stop proj clip pf bt n m i r rYs m2 hin hnet hall hres hrm
    unfold walkStep
    simp only [hin, hnet, hall]
    simp [hres, initializedReverseMappings, hrm]

theorem missing_mapping_fails_lazily_witness :
    walkStep (initializedReverseMappings (fun _ => none) none) [] .bFalse .bFalse
        (fun v => v) [] 0 [] (0, ⟨3, false, false, [7], [5]⟩) = .ok []
    ∧ walkStep (initializedReverseMappings (fun _ => none) none) [] .bFalse .bFalse
        (fun v => v) [] 0 [(5, ⟨(0, 0), some [9], none, none⟩)]
        (0, ⟨3, false, false, [7], [5]⟩) = .error .noneCallable :=
  ⟨missing_mapping_fails_lazily.1 (fun _ => none) [] .bFalse .bFalse
     (fun v => v) [] 0 [] 0 ⟨3, false, false, [7], [5]⟩ rfl rfl (by decide),
   missing_mapping_fails_lazily.2 (fun _ => none) [] .bFalse .bFalse
     (fun v => v) [] 0 [(5, ⟨(0, 0), some [9], none, none⟩)] 0
     ⟨3, false, false, [7], [5]⟩ [[9]] [(5, ⟨(0, 0), some [9], none, some [9]⟩)]
     rfl rfl (by decide) (by decide) rfl⟩

/-- Claim C9 counterexample: a full reversal run in which no rule resolves
for the only non-input record and no default is configured fails with the
untyped none-call error — not with a MissingMapping error carrying the
offending node's identity, which the code never constructs. -/
theorem missing_mapping_surfaces_without_identity :
    reverseModel [7] (fun _ => none) none (fun t => [(t : Int)]) [] .bFalse .bFalse
      (fun v => v)
      (.ok ([⟨0, true, false, [], [7]⟩, ⟨1, false, false, [7], [5]⟩], [5]))
      = .error .noneCallable
    ∧ isMissingMappingErr .noneCallable = false := by
  refine ⟨by decide, rfl⟩
